import Mathlib

/-
Shallow embedding of the 20-Questions repository.

Modelled source files:
  * src/Final_Submission/main_new.py — the attribute-based session
    (`best_question`, `play_game`) and the category pre-filter prompt loop;
  * src/category_example_20_q.py — the letter-pattern fallback session
    (`LETTER_STRATEGY`, `CATEGORIES`, `select_best_letter_question`,
    `select_category_question`, `play_game`).

Modelling conventions:
  * Python dicts are association lists in insertion order; ratings are
    integers (the data files carry 0/1 flags and 1..10 scale ratings).
  * Python sets carry no iteration-order guarantee, and iteration order can
    change between independent runs (string hash randomisation).  Wherever
    the source iterates a set (the `properties` set, `remaining_nouns`),
    the embedding takes the iteration order as an explicit list parameter,
    so claims quantify over the orders a run may exhibit.
  * float("inf") is `Option.none` in the running-minimum score; all score
    arithmetic is exact on Nat (the Python floats are exact on these
    integer counts).
  * Python's `sorted` is a stable sort, and a stable sort's output list is
    uniquely determined, so `List.insertionSort` (stable) models it.
-/

abbrev Noun := String

abbrev PName := String

/-- The table `noun_data`: noun -> association list of (property, rating),
mirroring the Python dict of dicts built from the JSONL records. -/
abbrev NounData := List (Noun × List (PName × Int))

/-- Python `noun_data[noun].get(prop)`: `none` when the noun or the
property is absent. -/
def lookupProp (nd : NounData) (n : Noun) (p : PName) : Option Int :=
  match nd.lookup n with
  | some props => props.lookup p
  | none => none

/-- The comprehension
`values = [(noun, noun_data[noun][prop]) for noun in remaining_nouns if prop in noun_data[noun]]`,
in the iteration order of the candidate list. -/
def valuesFor (nd : NounData) (remaining : List Noun) (p : PName) : List (Noun × Int) :=
  remaining.filterMap (fun n => (lookupProp nd n p).map (fun v => (n, v)))

/-- Python `abs(len(yes) - len(no))` on natural counts. -/
def absDiff (a b : Nat) : Nat := max a b - min a b

/-- Python `split_score < best_split_score`, where `best_split_score`
starts at `float("inf")` (modelled as `none`). -/
def scoreLT (s : Nat) (best : Option Nat) : Bool :=
  match best with
  | none => true
  | some b => s < b

/-- The five local variables threaded through the loop of `best_question`
in main_new.py. -/
structure BestState where
  best_property : Option PName
  best_split_score : Option Nat
  best_threshold : Option Int
  best_type : Option String
  best_reference : Option Noun
deriving Repr, DecidableEq

/-- The initial assignment of `best_question`'s loop variables. -/
def initBest : BestState := ⟨none, none, none, none, none⟩

/-- Count of recorded values strictly above the threshold
(`len([v for _, v in values if v > threshold])`). -/
def yesCount (values : List (Noun × Int)) (t : Int) : Nat :=
  (values.filter (fun x => t < x.2)).length

/-- Count of recorded values at or below the threshold
(`len([v for _, v in values if v <= threshold])`). -/
def noCount (values : List (Noun × Int)) (t : Int) : Nat :=
  (values.filter (fun x => x.2 ≤ t)).length

/-- The imbalance score `abs(len(yes) - len(no))` of a scalar split at
threshold `t`. -/
def splitScore (values : List (Noun × Int)) (t : Int) : Nat :=
  absDiff (yesCount values t) (noCount values t)

/-- Validity of a scalar split at threshold `t`: both sides non-empty
(the source's guard `0 < len(yes) < len(values)`; every recorded value is
either above or at-or-below the threshold, so this is exactly two
non-empty sides). -/
def validSplit (values : List (Noun × Int)) (t : Int) : Prop :=
  0 < yesCount values t ∧ yesCount values t < values.length

instance (values : List (Noun × Int)) (t : Int) : Decidable (validSplit values t) :=
  inferInstanceAs (Decidable (And _ _))

/-- The `property_types[prop] == "boolean"` branch of `best_question`:
count the 1-ratings and the 0-ratings and take the attribute on a strictly
better (smaller) score.  Note the source has no emptiness guard here, and
`best_threshold` / `best_reference` are left at their previous values. -/
def boolUpdate (prop : PName) (values : List (Noun × Int)) (st : BestState) : BestState :=
  let yes := (values.filter (fun x => x.2 == 1)).length
  let no := (values.filter (fun x => x.2 == 0)).length
  let score := absDiff yes no
  if scoreLT score st.best_split_score then
    { st with
        best_property := some prop
        best_split_score := some score
        best_type := some "binary" }
  else st

/-- One iteration of the scalar threshold loop of `best_question`, at
`sorted_values[i]`: the candidate threshold is that entry's rating and the
candidate reference noun is that entry's noun; the update fires only when
`0 < len(yes) < len(values)` and the score strictly improves. -/
def scalarStep (prop : PName) (values : List (Noun × Int)) (st : BestState)
    (pair : Noun × Int) : BestState :=
  let threshold := pair.2
  let yes := yesCount values threshold
  let score := absDiff yes (noCount values threshold)
  if 0 < yes ∧ yes < values.length ∧ scoreLT score st.best_split_score then
    ⟨some prop, some score, some threshold, some "continuous", some pair.1⟩
  else st

/-- Python `sorted(values, key=lambda x: x[1])`: stable sort by rating. -/
def sortValues (values : List (Noun × Int)) : List (Noun × Int) :=
  values.insertionSort (fun a b => a.2 ≤ b.2)

/-- The `property_types[prop] == "scale"` branch of `best_question`:
`for i in range(1, len(sorted_values))` — every sorted entry except the
first is tried as a threshold. -/
def scalarUpdate (prop : PName) (values : List (Noun × Int)) (st : BestState) : BestState :=
  ((sortValues values).drop 1).foldl (scalarStep prop values) st

/-- The thresholds the scalar branch actually enumerates: the ratings at
positions 1.. of the value-sorted list, i.e. every recorded value except a
uniquely-minimal one. -/
def scalarThresholds (values : List (Noun × Int)) : List Int :=
  ((sortValues values).drop 1).map (fun x => x.2)

/-- Function `best_question(noun_data, remaining_nouns, asked_properties)` of
main_new.py.  `props` is the iteration order of the global set `properties`
(a Python set: arbitrary order, possibly differing between runs); `ptypes` is the dict
`property_types`.  The catch-all match arm is unreachable in the source
because `properties = set(property_types.keys())`. -/
def best_question (ptypes : List (PName × String)) (nd : NounData)
    (props : List PName) (remaining : List Noun) (asked : List PName) : BestState :=
  props.foldl
    (fun st prop =>
      if asked.contains prop then st
      else
        let values := valuesFor nd remaining prop
        match ptypes.lookup prop with
        | some "boolean" => boolUpdate prop values st
        | some "scale" => scalarUpdate prop values st
        | _ => st)
    initBest

/-- The question record emitted in one turn of `play_game`: the chosen
property, the reported type, and (for scalar questions) the threshold and
the reference noun used for phrasing. -/
structure GameQuestion where
  prop : PName
  qtype : String
  threshold : Option Int
  reference : Option Noun
deriving Repr, DecidableEq

/-- The mutable session state of `play_game` in main_new.py:
`remaining_nouns` (as its iteration order), `asked_properties`,
`question_count`. -/
structure GState where
  remaining : List Noun
  asked : List PName
  count : Nat
deriving Repr, DecidableEq

/-- Filtering after a "binary" question:
`noun_data[noun].get(best_prop) == (1 if answer == 1 else 0)`.
A missing value (`None`) compares unequal to both 0 and 1, so an absent
noun is dropped whatever the answer is. -/
def binaryFilter (nd : NounData) (remaining : List Noun) (prop : PName)
    (answer : Int) : List Noun :=
  remaining.filter (fun n => lookupProp nd n prop == some (if answer == 1 then (1 : Int) else 0))

/-- Filtering after a "continuous" question:
`noun_data[noun].get(best_prop, 0) > threshold` on a yes answer and
`... <= threshold` otherwise; a missing value defaults to 0. -/
def continuousFilter (nd : NounData) (remaining : List Noun) (prop : PName)
    (threshold : Int) (answer : Int) : List Noun :=
  if answer == 1 then
    remaining.filter (fun n => threshold < (lookupProp nd n prop).getD 0)
  else
    remaining.filter (fun n => (lookupProp nd n prop).getD 0 ≤ threshold)

/-- The filtering block of `play_game` in main_new.py, dispatching on the
reported question type.  The final catch-alls are unreachable: a chosen
question is always "binary" or "continuous", and a "continuous" best always
records its threshold. -/
def applyAnswer (nd : NounData) (remaining : List Noun) (bq : BestState)
    (prop : PName) (answer : Int) : List Noun :=
  if bq.best_type == some "binary" then
    binaryFilter nd remaining prop answer
  else if bq.best_type == some "continuous" then
    match bq.best_threshold with
    | some t => continuousFilter nd remaining prop t answer
    | none => remaining
  else remaining

/-- One observed turn of the session: the turn counter and candidate list
before the question, the question, the (already parsed) answer, and the
candidate list after filtering. -/
structure TraceEntry where
  countBefore : Nat
  remBefore : List Noun
  question : GameQuestion
  answer : Int
  remAfter : List Noun
deriving Repr, DecidableEq

/-- The main loop of `play_game` in main_new.py.  `fuel` bounds the
recursion (19 at the top call; the loop is anyway stopped by the
`question_count < 19` guard).  `answers` is the stream of already-parsed
integer answers; an exhausted stream stops the loop (the real program would
block on input there). -/
def playAux (nd : NounData) (ptypes : List (PName × String)) (props : List PName) :
    Nat → GState → List Int → List TraceEntry × GState
  | 0, st, _ => ([], st)
  | fuel + 1, st, answers =>
    if st.count < 19 ∧ 1 < st.remaining.length then
      let bq := best_question ptypes nd props st.remaining st.asked
      match bq.best_property with
      | none => ([], st)
      | some prop =>
        match answers with
        | [] => ([], st)
        | answer :: rest =>
          let remAfter := applyAnswer nd st.remaining bq prop answer
          let next := playAux nd ptypes props fuel ⟨remAfter, st.asked ++ [prop], st.count + 1⟩ rest
          (⟨st.count, st.remaining,
              ⟨prop, bq.best_type.getD "", bq.best_threshold, bq.best_reference⟩,
              answer, remAfter⟩ :: next.1, next.2)
    else ([], st)

/-- The final guess of main_new.py:
`guess = list(remaining_nouns)[0] if remaining_nouns else "unknown"` —
the first noun in the set's (arbitrary) iteration order, or the sentinel
"unknown" when no candidate remains. -/
def mainNewGuess (remaining : List Noun) : Noun :=
  match remaining with
  | [] => "unknown"
  | n :: _ => n

/-- Function `play_game(noun_data)` of main_new.py.  `rem0` is the iteration
order of `set(noun_data.keys())`.  Returns the question trace and the final
guess. -/
def play_game (nd : NounData) (ptypes : List (PName × String)) (props : List PName)
    (rem0 : List Noun) (answers : List Int) : List TraceEntry × Noun :=
  let r := playAux nd ptypes props 19 ⟨rem0, [], 0⟩ answers
  (r.1, mainNewGuess r.2.remaining)

/-- The category pre-filter tree of main.py / main_new.py: internal nodes
hold a question with YES and NO children, leaves hold a category name. -/
inductive CatTree where
  | node (q : String) (yes no : CatTree)
  | leaf (c : String)
deriving Repr, DecidableEq

/-- One round of the pre-filter prompt loop (`while not isinstance(node, str)`):
token "1" descends the YES branch, "0" the NO branch, and any other token
prints an error and re-prompts, leaving the node unchanged. -/
def treeStep : CatTree → String → CatTree
  | CatTree.leaf c, _ => CatTree.leaf c
  | CatTree.node q y n, tok =>
    if tok = "1" then y else if tok = "0" then n else CatTree.node q y n

/-- Decimal digits to a number, `none` on a non-digit character. -/
def digitsToNatAux : List Char → Nat → Option Nat
  | [], acc => some acc
  | c :: cs, acc =>
    if c.isDigit then digitsToNatAux cs (acc * 10 + (c.toNat - 48)) else none

/-- A non-empty all-digit character list to a number. -/
def digitsToNat? : List Char → Option Nat
  | [] => none
  | c :: cs => digitsToNatAux (c :: cs) 0

/-- Python `int(tok)` on an optionally-signed decimal token
(whitespace stripping and underscore grouping are not modelled; the claims
only use plainly numeric and plainly non-numeric tokens).
`none` models the ValueError. -/
def pyParseInt (tok : String) : Option Int :=
  match tok.data with
  | '-' :: rest => (digitsToNat? rest).map (fun n => -(n : Int))
  | l => (digitsToNat? l).map (fun n => (n : Int))

/-- The in-session answer read of main_new.py, `int(input(...))`, has no
surrounding handler: a token that is not an integer literal raises
ValueError and the exception escapes `play_game` (`Except.error`). -/
def mainNewAnswerOrAbort (tok : String) : Except String Int :=
  match pyParseInt tok with
  | none => Except.error "ValueError: invalid literal for int"
  | some a => Except.ok a

/-- Python `s.lower()` (the nouns are ASCII), realised on the character
list so that it evaluates by kernel reduction. -/
def pyLower (s : String) : String := ⟨s.data.map Char.toLower⟩

/-- Char-list test: `needle` starts the haystack. -/
def charsStartWith : List Char → List Char → Bool
  | [], _ => true
  | _ :: _, [] => false
  | a :: as, b :: bs => a == b && charsStartWith as bs

/-- Char-list substring test. -/
def charsContain (needle : List Char) : List Char → Bool
  | [] => charsStartWith needle []
  | b :: bs => charsStartWith needle (b :: bs) || charsContain needle bs

/-- Python's `needle in hay` on strings. -/
def strContains (hay needle : String) : Bool := charsContain needle.data hay.data

/-- A LETTER_STRATEGY test of category_example_20_q.py.  `none` models an
exception inside the lambda (indexing `n[0]` / `n[-1]` of an empty name),
which the selector's `try/except` turns into skipping the question. -/
def containsTest (c : Char) (n : Noun) : Option Bool :=
  some ((pyLower n).data.contains c)

/-- Test `n[0].lower() == c`. -/
def startsTest (c : Char) (n : Noun) : Option Bool :=
  match n.data with
  | [] => none
  | ch :: _ => some (ch.toLower == c)

/-- Test `n[-1].lower() == c`. -/
def endsTest (c : Char) (n : Noun) : Option Bool :=
  match n.data.getLast? with
  | none => none
  | some ch => some (ch.toLower == c)

/-- Test `' ' in n` (no lowering in the source). -/
def spaceTest (n : Noun) : Option Bool := some (n.data.contains ' ')

/-- Test `len(n.replace(' ', '')) >= 10`: the space-free length. -/
def longTest (n : Noun) : Option Bool :=
  some (10 ≤ (n.data.filter (fun c => !(c == ' '))).length)

/-- The ordered catalog LETTER_STRATEGY of category_example_20_q.py:
(key, question text, test). -/
def LETTER_STRATEGY : List (String × String × (Noun → Option Bool)) :=
  [("contains_r", "Does it contain the letter R?", containsTest 'r'),
   ("contains_i", "Does it contain the letter I?", containsTest 'i'),
   ("contains_o", "Does it contain the letter O?", containsTest 'o'),
   ("contains_t", "Does it contain the letter T?", containsTest 't'),
   ("contains_n", "Does it contain the letter N?", containsTest 'n'),
   ("starts_s", "Does it start with the letter S?", startsTest 's'),
   ("starts_c", "Does it start with the letter C?", startsTest 'c'),
   ("starts_b", "Does it start with the letter B?", startsTest 'b'),
   ("starts_p", "Does it start with the letter P?", startsTest 'p'),
   ("starts_m", "Does it start with the letter M?", startsTest 'm'),
   ("starts_d", "Does it start with the letter D?", startsTest 'd'),
   ("starts_a", "Does it start with the letter A?", startsTest 'a'),
   ("contains_e", "Does it contain the letter E?", containsTest 'e'),
   ("contains_a", "Does it contain the letter A?", containsTest 'a'),
   ("contains_l", "Does it contain the letter L?", containsTest 'l'),
   ("contains_s", "Does it contain the letter S?", containsTest 's'),
   ("ends_e", "Does it end with the letter E?", endsTest 'e'),
   ("ends_r", "Does it end with the letter R?", endsTest 'r'),
   ("ends_n", "Does it end with the letter N?", endsTest 'n'),
   ("ends_t", "Does it end with the letter T?", endsTest 't'),
   ("ends_s", "Does it end with the letter S?", endsTest 's'),
   ("has_space", "Does it have a space in it (is it multiple words)?", spaceTest),
   ("long_word", "Is it a long word (10 or more letters)?", longTest)]

/-- Evaluate one letter question on the candidates: the two comprehensions
computing `yes_nouns` and `no_nouns`, run inside the selector's `try`;
`none` models an exception on some candidate (the `except: continue` path). -/
def splitByTest (candidates : List Noun) (t : Noun → Option Bool) :
    Option (List Noun × List Noun) :=
  if candidates.all (fun n => (t n).isSome) then
    some (candidates.filter (fun n => (t n).getD false),
          candidates.filter (fun n => !(t n).getD false))
  else none

/-- Ratio comparison `min/max > best` done exactly on
(numerator, denominator) pairs.  For candidate counts of this data set any
two distinct such ratios differ by far more than double-precision rounding
error, so the exact comparison agrees with the Python float comparison. -/
def ratioGT (a b : Nat × Nat) : Bool := b.2 * a.1 > b.1 * a.2

/-- One iteration of the catalog loop in `select_best_letter_question`:
skip asked keys, skip raising tests, skip one-sided splits, keep the split
whose min/max ratio strictly beats the best so far (initially 0). -/
def letterFold (candidates : List Noun) (asked_letters : List String)
    (st : Option (String × List Noun × List Noun) × Nat × Nat)
    (entry : String × String × (Noun → Option Bool)) :
    Option (String × List Noun × List Noun) × Nat × Nat :=
  if asked_letters.contains entry.1 then st
  else
    match splitByTest candidates entry.2.2 with
    | none => st
    | some (yes, no) =>
      if yes.isEmpty || no.isEmpty then st
      else
        let r := (min yes.length no.length, max yes.length no.length)
        if ratioGT r st.2 then (some (entry.1, yes, no), r) else st

/-- Function `select_best_letter_question(candidates, asked_letters)` of
category_example_20_q.py, returning the winning (key, yes_nouns, no_nouns)
or `none`. -/
def select_best_letter_question (candidates : List Noun) (asked_letters : List String) :
    Option (String × List Noun × List Noun) :=
  (LETTER_STRATEGY.foldl (letterFold candidates asked_letters) (none, 0, 1)).1

/-- The keyword list of the 'exercise' category test. -/
def exerciseWords : List String :=
  ["press", "curl", "squat", "lift", "pull", "push", "row", "raise",
   "extension", "lunge", "bridge", "plank", "crunch", "burpee", "jump"]

/-- CATEGORIES 'exercise' test: any keyword occurs in the lowered name. -/
def exerciseTest (n : Noun) : Bool :=
  exerciseWords.any (fun w => strContains (pyLower n) w)

/-- The keyword list of the 'motorcycle' category test. -/
def motorcycleWords : List String :=
  ["ninja", "cbr", "gsxr", "duke", "monster", "panigale", "r1", "r6",
   "zx", "hayabusa", "fireblade"]

/-- CATEGORIES 'motorcycle' test: a keyword occurs, or the name has a digit. -/
def motorcycleTest (n : Noun) : Bool :=
  motorcycleWords.any (fun w => strContains (pyLower n) w) || n.data.any Char.isDigit

/-- The 50 US state names of the 'state' category test. -/
def stateNames : List String :=
  ["alabama", "alaska", "arizona", "arkansas", "california", "colorado",
   "connecticut", "delaware", "florida", "georgia", "hawaii", "idaho",
   "illinois", "indiana", "iowa", "kansas", "kentucky", "louisiana",
   "maine", "maryland", "massachusetts", "michigan", "minnesota",
   "mississippi", "missouri", "montana", "nebraska", "nevada",
   "new hampshire", "new jersey", "new mexico", "new york",
   "north carolina", "north dakota", "ohio", "oklahoma", "oregon",
   "pennsylvania", "rhode island", "south carolina", "south dakota",
   "tennessee", "texas", "utah", "vermont", "virginia", "washington",
   "west virginia", "wisconsin", "wyoming"]

/-- CATEGORIES 'state' test: the lowered name is one of the 50 states. -/
def stateTest (n : Noun) : Bool := stateNames.contains (pyLower n)

/-- The secondary catalog CATEGORIES of category_example_20_q.py, in dict
insertion order: (key, question text, test). -/
def CATEGORIES : List (String × String × (Noun → Bool)) :=
  [("exercise", "Is it an exercise or workout movement?", exerciseTest),
   ("motorcycle", "Is it a motorcycle model?", motorcycleTest),
   ("state", "Is it a US state?", stateTest)]

/-- Comparison `split_ratio > 0.15` done exactly: min/max > 15/100 iff
20 * min > 3 * max (again exact for these counts). -/
def ratioGT15 (mn mx : Nat) : Bool := 20 * mn > 3 * mx

/-- The loop of `select_category_question`: return the first unused
category whose split has both sides non-empty and ratio above 0.15. -/
def selectCategoryAux (candidates : List Noun) (asked_categories : List String) :
    List (String × String × (Noun → Bool)) → Option (String × List Noun × List Noun)
  | [] => none
  | entry :: rest =>
    if asked_categories.contains entry.1 then
      selectCategoryAux candidates asked_categories rest
    else
      let yes := candidates.filter entry.2.2
      let no := candidates.filter (fun n => !entry.2.2 n)
      if yes.isEmpty || no.isEmpty then selectCategoryAux candidates asked_categories rest
      else if ratioGT15 (min yes.length no.length) (max yes.length no.length) then
        some (entry.1, yes, no)
      else selectCategoryAux candidates asked_categories rest

/-- Function `select_category_question(candidates, asked_categories)` of
category_example_20_q.py. -/
def select_category_question (candidates : List Noun) (asked_categories : List String) :
    Option (String × List Noun × List Noun) :=
  selectCategoryAux candidates asked_categories CATEGORIES

/-- Which catalog a question of the letter-based session came from. -/
inductive CatQSource where
  | letter
  | category
deriving Repr, DecidableEq

/-- One observed turn of the letter-based session. -/
structure CatEntry where
  source : CatQSource
  key : String
  countBefore : Nat
  candidatesBefore : List Noun
  answerTok : String
  candidatesAfter : List Noun
deriving Repr, DecidableEq

/-- The session state of `play_game` in category_example_20_q.py. -/
structure CatState where
  candidates : List Noun
  asked_letters : List String
  asked_categories : List String
  count : Nat
deriving Repr, DecidableEq

/-- The main loop of `play_game` in category_example_20_q.py: a letter
question whenever one is available, otherwise a category question, else
break.  The answer is the raw token and `answer_bool = (answer == "1")`:
any other token — malformed or not — selects the NO side and consumes the
turn.  An exhausted token stream stops the loop (the real program would
block on input). -/
def catPlayAux : Nat → CatState → List String → List CatEntry × CatState
  | 0, st, _ => ([], st)
  | fuel + 1, st, tokens =>
    if st.count < 19 ∧ 1 < st.candidates.length then
      match select_best_letter_question st.candidates st.asked_letters with
      | some (key, yes, no) =>
        match tokens with
        | [] => ([], st)
        | tok :: rest =>
          let after := if tok = "1" then yes else no
          let next := catPlayAux fuel
            ⟨after, st.asked_letters ++ [key], st.asked_categories, st.count + 1⟩ rest
          (⟨CatQSource.letter, key, st.count, st.candidates, tok, after⟩ :: next.1, next.2)
      | none =>
        match select_category_question st.candidates st.asked_categories with
        | some (key, yes, no) =>
          match tokens with
          | [] => ([], st)
          | tok :: rest =>
            let after := if tok = "1" then yes else no
            let next := catPlayAux fuel
              ⟨after, st.asked_letters, st.asked_categories ++ [key], st.count + 1⟩ rest
            (⟨CatQSource.category, key, st.count, st.candidates, tok, after⟩ :: next.1, next.2)
        | none => ([], st)
    else ([], st)

/-- Python's string order: lexicographic on the code points.  Realised as
a boolean on character lists so that it evaluates by kernel reduction. -/
def charsLe : List Char → List Char → Bool
  | [], _ => true
  | _ :: _, [] => false
  | a :: as, b :: bs =>
    if a.toNat < b.toNat then true
    else if b.toNat < a.toNat then false
    else charsLe as bs

/-- Python `a <= b` on strings. -/
def strLe (a b : String) : Bool := charsLe a.data b.data

/-- Propositional form of the string order, for the sorting lemmas. -/
def strLeP (a b : String) : Prop := strLe a b = true

instance : DecidableRel strLeP :=
  fun a b => inferInstanceAs (Decidable (strLe a b = true))

/-- Python `sorted(candidates)` on names (stable sort, so insertion sort
produces the same list). -/
def sortedStrings (l : List String) : List String :=
  l.insertionSort strLeP

/-- The terminal guess of category_example_20_q.py:
`guess = sorted(candidates)[0]` when candidates remain; when none remain
the program prints "Error: No candidates remain!" instead of guessing
(modelled as `none`). -/
def catGuess (candidates : List Noun) : Option Noun :=
  match sortedStrings candidates with
  | [] => none
  | g :: _ => some g

/-- Function `play_game(noun_data)` of category_example_20_q.py: the loop
from the initial candidate list, then the terminal guess. -/
def catPlay (nouns : List Noun) (tokens : List String) :
    List CatEntry × CatState × Option Noun :=
  let r := catPlayAux 19 ⟨nouns, [], [], 0⟩ tokens
  (r.1, r.2, catGuess r.2.candidates)

/-- Soundness of a recorded "continuous" best, relative to the candidate
table: the recorded property and threshold split that property's recorded
values with both sides non-empty. -/
def contSound (nd : NounData) (remaining : List Noun) (st : BestState) : Prop :=
  st.best_type = some "continuous" →
    ∃ p t, st.best_property = some p ∧ st.best_threshold = some t ∧
      validSplit (valuesFor nd remaining p) t

/-- Order on running-minimum scores, `none` being `float("inf")`. -/
def scoreLE (a b : Option Nat) : Prop :=
  ∀ n, b = some n → ∃ m, a = some m ∧ m ≤ n

/-- Consistency of the recorded threshold and score with a value table:
a recorded best is a valid split whose recorded score is its imbalance. -/
def thrConsistent (values : List (Noun × Int)) (st : BestState) : Prop :=
  ∀ t s, st.best_threshold = some t → st.best_split_score = some s →
    validSplit values t ∧ s = splitScore values t

/-
Theorems.  Helper lemmas come first; the claim theorems (and their
witnesses and counterexamples) are named after the claims C1..C10.
-/

/-- Claim C1, counterexample: on the two-noun table where no noun records a
value for the boolean attribute "p", the split has both sides empty (score
0), yet `best_question` selects "p" as the chosen question — the boolean
branch of the source has no emptiness guard. -/
theorem C1_counterexample :
    best_question [("p", "boolean")] [("a", []), ("b", [])] ["p"] ["a", "b"] [] =
      ⟨some "p", some 0, none, some "binary", none⟩ := by decide

/-- Claim C2, counterexample: for the five candidates with scalar values
[2,4,6,8,10], thresholds 4 and 6 tie on imbalance (both 1), threshold 6
has the smaller yes group (2 versus 3), yet the evaluation returns
threshold 4 — on a tie the source keeps the earliest threshold in sorted
order, which is the **larger** yes group, contradicting the claim's
"smaller yes group preferred" tie rule. -/
theorem C2_counterexample :
    scalarUpdate "size" [("a", 2), ("b", 4), ("c", 6), ("d", 8), ("e", 10)] initBest =
      ⟨some "size", some 1, some 4, some "continuous", some "b"⟩ ∧
    splitScore [("a", 2), ("b", 4), ("c", 6), ("d", 8), ("e", 10)] 4 =
      splitScore [("a", 2), ("b", 4), ("c", 6), ("d", 8), ("e", 10)] 6 ∧
    yesCount [("a", 2), ("b", 4), ("c", 6), ("d", 8), ("e", 10)] 4 = 3 ∧
    yesCount [("a", 2), ("b", 4), ("c", 6), ("d", 8), ("e", 10)] 6 = 2 := by decide

/-- Claim C3, counterexample: the same dataset and the same answer
sequence, under two iteration orders of the same attribute set (Python
iterates the `properties` set in an arbitrary, run-dependent order), yield
different first questions ("p" versus "q") and different final guesses
("a" versus "b"): tie-breaking depends on the unordered iteration. -/
theorem C3_counterexample :
    (["p", "q"] : List PName).Perm ["q", "p"] ∧
    play_game [("a", [("p", 1), ("q", 0)]), ("b", [("p", 0), ("q", 1)])]
        [("p", "boolean"), ("q", "boolean")] ["p", "q"] ["a", "b"] [1] =
      ([⟨0, ["a", "b"], ⟨"p", "binary", none, none⟩, 1, ["a"]⟩], "a") ∧
    play_game [("a", [("p", 1), ("q", 0)]), ("b", [("p", 0), ("q", 1)])]
        [("p", "boolean"), ("q", "boolean")] ["q", "p"] ["a", "b"] [1] =
      ([⟨0, ["a", "b"], ⟨"q", "binary", none, none⟩, 1, ["b"]⟩], "b") := by decide

/-- Claim C4, counterexample: noun "b" has no recorded value for the
boolean attribute "p"; answering NO (2) to the question on "p" removes it
(the result is empty), and answering YES (1) removes it too — an
absent-value candidate does not survive the "no" answer of a boolean
question, contrary to the claimed convention. -/
theorem C4_counterexample :
    binaryFilter [("a", [("p", 1)]), ("b", [])] ["a", "b"] "p" 2 = [] ∧
    binaryFilter [("a", [("p", 1)]), ("b", [])] ["a", "b"] "p" 1 = ["a"] := by decide

/-- Claim C6, counterexample: in the letter-based session, on the
malformed token "x" the loop treats the answer as NO: from candidates
[car, bed] with no question asked, one step consumes the token, marks
contains_r asked, filters the candidates to [bed] and increments the turn
count — the state changes and a turn is consumed.  And main_new.py's
in-session read `int(input(...))` of "x" raises an uncaught ValueError. -/
theorem C6_counterexample :
    (catPlayAux 19 ⟨["car", "bed"], [], [], 0⟩ ["x"]).2 =
      ⟨["bed"], ["contains_r"], [], 1⟩ ∧
    mainNewAnswerOrAbort "x" = Except.error "ValueError: invalid literal for int" :=
  ⟨by decide, rfl⟩

/-- Claim C7, counterexample: a terminal state of main_new.py's session
with candidates remaining in set-iteration order [dog, cat] guesses "dog",
the first element of that order, not the lexicographically first member
"cat". -/
theorem C7_counterexample :
    play_game [("dog", []), ("cat", [])] [] [] ["dog", "cat"] [] = ([], "dog") ∧
    sortedStrings ["dog", "cat"] = ["cat", "dog"] ∧ ("dog" : String) ≠ "cat" := by decide

/-- Claim C9, counterexample: in main_new.py the attribute selector
returns no question (there are no attributes), a name-pattern fallback
question is available (contains_r splits [ra, bo] evenly), yet the session
issues no question at all and goes straight to the terminal guess — the
attribute-based session never escalates to any fallback strategy. -/
theorem C9_counterexample :
    play_game [("ra", []), ("bo", [])] [] [] ["ra", "bo"] [1] = ([], "ra") ∧
    select_best_letter_question ["ra", "bo"] [] = some ("contains_r", ["ra"], ["bo"]) := by decide

/-- Claim C4, amended: the convention holds only for scalar ("continuous")
questions with a non-negative threshold, where the missing-value default 0
places the candidate on the "at most threshold" side: it is removed by a
YES answer and survives any non-YES answer.  For boolean questions a
candidate lacking a value is removed by **both** answers, because `None`
compares unequal to 0 and to 1. -/
theorem C4_amended (nd : NounData) (remaining : List Noun) (p : PName) (t : Int)
    (n : Noun) (a : Int) (habs : lookupProp nd n p = none) :
    n ∉ binaryFilter nd remaining p a ∧
    (0 ≤ t →
      n ∉ continuousFilter nd remaining p t 1 ∧
      (a ≠ 1 → (n ∈ continuousFilter nd remaining p t a ↔ n ∈ remaining))) := by
  refine ⟨?_, fun ht => ⟨?_, fun ha => ?_⟩⟩
  · simp [binaryFilter, List.mem_filter, habs]
  · simp [continuousFilter, List.mem_filter, habs]
    omega
  · have : (a == 1) = false := by simpa using ha
    simp [continuousFilter, this, List.mem_filter, habs, ht]

/-- Claim C4, witness: noun "b" records no value for "p"; it is dropped by
the boolean filter on answer 2, while the scalar filter at threshold 5
keeps it on answer 2 and drops it on answer 1. -/
theorem C4_witness :
    ("b" : Noun) ∉ binaryFilter [("a", [("p", 1)]), ("b", [])] ["a", "b"] "p" 2 ∧
    (0 ≤ (5 : Int) →
      ("b" : Noun) ∉ continuousFilter [("a", [("p", 1)]), ("b", [])] ["a", "b"] "p" 5 1 ∧
      ((2 : Int) ≠ 1 →
        (("b" : Noun) ∈ continuousFilter [("a", [("p", 1)]), ("b", [])] ["a", "b"] "p" 5 2 ↔
          ("b" : Noun) ∈ (["a", "b"] : List Noun)))) :=
  C4_amended [("a", [("p", 1)]), ("b", [])] ["a", "b"] "p" 5 "b" 2 (by decide)

/-- Claim C5: filtering after a boolean question keeps exactly the
candidates whose recorded flag is **value-equal** to the answered flag
(main_new.py compares with `==`); and on the two-entity dataset
cat: fast 0 / dog: fast 1, asking `fast` and answering yes leaves [dog]
and the final guess is "dog". -/
theorem C5_theorem :
    (∀ (nd : NounData) (remaining : List Noun) (p : PName) (a : Int) (n : Noun),
        n ∈ binaryFilter nd remaining p a ↔
          n ∈ remaining ∧ lookupProp nd n p = some (if a == 1 then 1 else 0)) ∧
    play_game [("cat", [("fast", 0)]), ("dog", [("fast", 1)])] [("fast", "boolean")]
        ["fast"] ["cat", "dog"] [1] =
      ([⟨0, ["cat", "dog"], ⟨"fast", "binary", none, none⟩, 1, ["dog"]⟩], "dog") := by
  refine ⟨fun nd remaining p a n => ?_, by decide⟩
  simp [binaryFilter, List.mem_filter]

/-- Claim C5, witness: the general characterisation instantiated — "dog"
passes the filter on answer 1 because its recorded flag equals 1. -/
theorem C5_witness :
    ("dog" : Noun) ∈
      binaryFilter [("cat", [("fast", 0)]), ("dog", [("fast", 1)])] ["cat", "dog"] "fast" 1 ↔
    ("dog" : Noun) ∈ (["cat", "dog"] : List Noun) ∧
      lookupProp [("cat", [("fast", 0)]), ("dog", [("fast", 1)])] "dog" "fast" =
        some (if (1 : Int) == 1 then 1 else 0) :=
  C5_theorem.1 [("cat", [("fast", 0)]), ("dog", [("fast", 1)])] ["cat", "dog"] "fast" 1 "dog"

/-- Claim C3, amended: the session is a pure function of the dataset, the
attribute iteration order and the answer sequence — two runs agree whenever
their set-iteration orders agree.  (The counterexample shows agreement can
fail when only the unordered attribute set, not its iteration order, is
fixed.) -/
theorem C3_amended (nd : NounData) (ptypes : List (PName × String))
    (props1 props2 : List PName) (rem1 rem2 : List Noun) (answers : List Int)
    (hp : props1 = props2) (hr : rem1 = rem2) :
    play_game nd ptypes props1 rem1 answers = play_game nd ptypes props2 rem2 answers := by
  rw [hp, hr]

/-- Claim C3, witness: two runs with the same iteration order coincide. -/
theorem C3_witness :
    play_game [("a", [("p", 1)])] [("p", "boolean")] ["p"] ["a"] [] =
      play_game [("a", [("p", 1)])] [("p", "boolean")] ["p"] ["a"] [] :=
  C3_amended _ _ _ _ _ _ _ rfl rfl

/-- Claim C6, amended: only the category pre-filter prompt re-prompts on a
malformed token, leaving its state (the current tree node) unchanged.  The
in-session prompts do not: in category_example_20_q.py a malformed token is
processed exactly like the NO token — same question key, same filtered
candidate set, same turn increment, differing only in the recorded raw
token — and in main_new.py the `int()` conversion of a malformed token
raises an uncaught ValueError that escapes the session. -/
theorem C6_amended (t : CatTree) (tok : String) (fuel : Nat) (st : CatState)
    (rest : List String) (h1 : tok ≠ "1") (h0 : tok ≠ "0") :
    treeStep t tok = t ∧
    ((catPlayAux (fuel + 1) st (tok :: rest)).1.map
        (fun e => (e.source, e.key, e.countBefore, e.candidatesBefore, e.candidatesAfter)),
      (catPlayAux (fuel + 1) st (tok :: rest)).2) =
      ((catPlayAux (fuel + 1) st ("0" :: rest)).1.map
        (fun e => (e.source, e.key, e.countBefore, e.candidatesBefore, e.candidatesAfter)),
      (catPlayAux (fuel + 1) st ("0" :: rest)).2) ∧
    (pyParseInt tok = none → ∃ msg, mainNewAnswerOrAbort tok = Except.error msg) := by
  refine ⟨?_, ?_, fun hp => ?_⟩
  · cases t with
    | leaf c => rfl
    | node q y n => simp [treeStep, h1, h0]
  · simp only [catPlayAux, if_neg h1, if_neg (by decide : ¬("0" : String) = "1")]
    split
    · split
      · simp
      · split
        · simp
        · rfl
    · rfl
  · exact ⟨"ValueError: invalid literal for int", by simp [mainNewAnswerOrAbort, hp]⟩

/-- Claim C6, witness: the amended statement at the malformed token "x",
a concrete tree node, and the concrete letter-session state. -/
theorem C6_witness :
    treeStep (CatTree.node "q" (CatTree.leaf "A") (CatTree.leaf "B")) "x" =
      CatTree.node "q" (CatTree.leaf "A") (CatTree.leaf "B") ∧
    ((catPlayAux 1 ⟨["car", "bed"], [], [], 0⟩ ["x"]).1.map
        (fun e => (e.source, e.key, e.countBefore, e.candidatesBefore, e.candidatesAfter)),
      (catPlayAux 1 ⟨["car", "bed"], [], [], 0⟩ ["x"]).2) =
      ((catPlayAux 1 ⟨["car", "bed"], [], [], 0⟩ ["0"]).1.map
        (fun e => (e.source, e.key, e.countBefore, e.candidatesBefore, e.candidatesAfter)),
      (catPlayAux 1 ⟨["car", "bed"], [], [], 0⟩ ["0"]).2) ∧
    (pyParseInt "x" = none → ∃ msg, mainNewAnswerOrAbort "x" = Except.error msg) :=
  C6_amended (CatTree.node "q" (CatTree.leaf "A") (CatTree.leaf "B")) "x" 0
    ⟨["car", "bed"], [], [], 0⟩ [] (by decide) (by decide)

theorem scoreLE_refl (a : Option Nat) : scoreLE a a := fun n h => ⟨n, h, le_refl n⟩

theorem scoreLE_trans {a b c : Option Nat} (h1 : scoreLE a b) (h2 : scoreLE b c) :
    scoreLE a c := by
  intro n hc
  obtain ⟨m, hb, hmn⟩ := h2 n hc
  obtain ⟨l, ha, hlm⟩ := h1 m hb
  exact ⟨l, ha, le_trans hlm hmn⟩

theorem scalarStep_scoreLE (prop : PName) (values : List (Noun × Int)) (st : BestState)
    (pair : Noun × Int) :
    scoreLE (scalarStep prop values st pair).best_split_score st.best_split_score := by
  simp only [scalarStep]
  split
  · rename_i hguard
    intro n hn
    refine ⟨_, rfl, ?_⟩
    have hlt := hguard.2.2
    rw [hn] at hlt
    simp only [scoreLT] at hlt
    exact Nat.le_of_lt (by exact_mod_cast of_decide_eq_true hlt)
  · exact scoreLE_refl _

theorem scalarFold_scoreLE (prop : PName) (values : List (Noun × Int)) :
    ∀ (l : List (Noun × Int)) (st : BestState),
      scoreLE ((l.foldl (scalarStep prop values) st).best_split_score) st.best_split_score := by
  intro l
  induction l with
  | nil => intro st; exact scoreLE_refl _
  | cons pair rest ih =>
    intro st
    exact scoreLE_trans (ih (scalarStep prop values st pair))
      (scalarStep_scoreLE prop values st pair)

theorem scalarStep_min (prop : PName) (values : List (Noun × Int)) (st : BestState)
    (pair : Noun × Int) (hv : validSplit values pair.2) :
    scoreLE (scalarStep prop values st pair).best_split_score
      (some (splitScore values pair.2)) := by
  simp only [scalarStep]
  split
  · exact scoreLE_refl _
  · rename_i hguard
    intro n hn
    injection hn with hn
    cases hsc : st.best_split_score with
    | none =>
      exact absurd ⟨hv.1, hv.2, by simp [scoreLT, hsc]⟩ hguard
    | some b =>
      have hns : ¬ scoreLT (splitScore values pair.2) st.best_split_score := by
        intro hc
        exact hguard ⟨hv.1, hv.2, hc⟩
      rw [hsc] at hns
      simp only [scoreLT] at hns
      have : ¬ splitScore values pair.2 < b := fun hc => hns (decide_eq_true hc)
      exact ⟨b, rfl, by omega⟩

theorem scalarFold_min (prop : PName) (values : List (Noun × Int)) :
    ∀ (l : List (Noun × Int)) (st : BestState) (pair : Noun × Int), pair ∈ l →
      validSplit values pair.2 →
      scoreLE ((l.foldl (scalarStep prop values) st).best_split_score)
        (some (splitScore values pair.2)) := by
  intro l
  induction l with
  | nil => intro st pair h; simp at h
  | cons q rest ih =>
    intro st pair hmem hv
    rcases List.mem_cons.1 hmem with rfl | hmem
    · exact scoreLE_trans (scalarFold_scoreLE prop values rest (scalarStep prop values st pair))
        (scalarStep_min prop values st pair hv)
    · exact ih (scalarStep prop values st q) pair hmem hv

theorem scalarStep_consistent (prop : PName) (values : List (Noun × Int)) (st : BestState)
    (pair : Noun × Int) (h : thrConsistent values st) :
    thrConsistent values (scalarStep prop values st pair) := by
  simp only [scalarStep]
  split
  · rename_i hguard
    intro t s ht hs
    injection ht with ht
    injection hs with hs
    subst ht; subst hs
    exact ⟨⟨hguard.1, hguard.2.1⟩, rfl⟩
  · exact h

theorem scalarFold_consistent (prop : PName) (values : List (Noun × Int)) :
    ∀ (l : List (Noun × Int)) (st : BestState), thrConsistent values st →
      thrConsistent values (l.foldl (scalarStep prop values) st) := by
  intro l
  induction l with
  | nil => intro st h; exact h
  | cons q rest ih =>
    intro st h
    exact ih _ (scalarStep_consistent prop values st q h)

theorem initBest_consistent (values : List (Noun × Int)) : thrConsistent values initBest := by
  intro t s ht
  simp [initBest] at ht

theorem scalarStep_eq_ite (prop : PName) (values : List (Noun × Int)) (st : BestState)
    (q : Noun × Int) :
    scalarStep prop values st q =
      if 0 < yesCount values q.2 ∧ yesCount values q.2 < values.length ∧
          scoreLT (absDiff (yesCount values q.2) (noCount values q.2)) st.best_split_score then
        ⟨some prop, some (absDiff (yesCount values q.2) (noCount values q.2)), some q.2,
          some "continuous", some q.1⟩
      else st := rfl

theorem scalarFold_firstMin (prop : PName) (values : List (Noun × Int)) :
    ∀ (l : List (Noun × Int)) (st : BestState) (t0 : Int) (s : Nat),
      (l.foldl (scalarStep prop values) st).best_threshold = some t0 →
      (l.foldl (scalarStep prop values) st).best_split_score = some s →
      (st.best_threshold = some t0 ∧ st.best_split_score = some s ∧
        ∀ q ∈ l, validSplit values q.2 → ¬ splitScore values q.2 < s) ∨
      (∃ l1 q l2, l = l1 ++ q :: l2 ∧ q.2 = t0 ∧ validSplit values q.2 ∧
        splitScore values q.2 = s ∧
        (∀ q' ∈ l1, validSplit values q'.2 → s < splitScore values q'.2) ∧
        (∀ n, st.best_split_score = some n → s < n)) := by
  intro l
  induction l with
  | nil =>
    intro st t0 s ht hs
    exact Or.inl ⟨ht, hs, fun q hq => absurd hq (List.not_mem_nil q)⟩
  | cons q rest ih =>
    intro st t0 s ht hs
    rw [List.foldl_cons] at ht hs
    rcases ih (scalarStep prop values st q) t0 s ht hs with ⟨h1, h2, h3⟩ | h2
    · -- the fold over `rest` kept the state `scalarStep prop values st q`
      by_cases hcond : 0 < yesCount values q.2 ∧ yesCount values q.2 < values.length ∧
          scoreLT (absDiff (yesCount values q.2) (noCount values q.2)) st.best_split_score
      · -- the step fired at q: the recorded best is q itself
        rw [scalarStep_eq_ite, if_pos hcond] at h1 h2
        injection h1 with h1
        injection h2 with h2
        refine Or.inr ⟨[], q, rest, rfl, h1, ⟨hcond.1, hcond.2.1⟩, ?_, ?_, ?_⟩
        · exact h2
        · intro q' hq'; exact absurd hq' (List.not_mem_nil q')
        · intro n hn
          have hlt := hcond.2.2
          rw [hn] at hlt
          simp only [scoreLT] at hlt
          have : absDiff (yesCount values q.2) (noCount values q.2) < n :=
            of_decide_eq_true hlt
          omega
      · -- the step kept st
        rw [scalarStep_eq_ite, if_neg hcond] at h1 h2
        refine Or.inl ⟨h1, h2, fun q' hq' hv hlt => ?_⟩
        rcases List.mem_cons.1 hq' with rfl | hq'
        · exact hcond ⟨hv.1, hv.2, by rw [h2]; simpa [scoreLT] using hlt⟩
        · exact h3 q' hq' hv hlt
    · -- the recorded best lies in `rest`
      obtain ⟨l1, qq, l2, hdec, hq2, hqv, hqs, hstrict, hless⟩ := h2
      refine Or.inr ⟨q :: l1, qq, l2, by rw [hdec, List.cons_append], hq2, hqv, hqs, ?_, ?_⟩
      · intro q' hq'
        rcases List.mem_cons.1 hq' with rfl | hq'
        · -- strictness at the head element q
          intro hv
          by_cases hcond : 0 < yesCount values q'.2 ∧ yesCount values q'.2 < values.length ∧
              scoreLT (absDiff (yesCount values q'.2) (noCount values q'.2))
                st.best_split_score
          · have := hless (absDiff (yesCount values q'.2) (noCount values q'.2))
              (by rw [scalarStep_eq_ite, if_pos hcond])
            exact this
          · have hstq : scalarStep prop values st q' = st := by
              rw [scalarStep_eq_ite, if_neg hcond]
            rw [hstq] at hless
            cases hsc : st.best_split_score with
            | none =>
              exact absurd ⟨hv.1, hv.2, by simp [scoreLT, hsc]⟩ hcond
            | some n =>
              have hs_lt_n := hless n hsc
              by_contra hc
              have hc2 : splitScore values q'.2 ≤ s := by omega
              have hc3 : absDiff (yesCount values q'.2) (noCount values q'.2) < n := by
                have heq : splitScore values q'.2 =
                    absDiff (yesCount values q'.2) (noCount values q'.2) := rfl
                omega
              refine hcond ⟨hv.1, hv.2, ?_⟩
              rw [hsc]
              simp only [scoreLT]
              exact decide_eq_true hc3
        · exact hstrict q' hq'
      · intro n hn
        by_cases hcond : 0 < yesCount values q.2 ∧ yesCount values q.2 < values.length ∧
            scoreLT (absDiff (yesCount values q.2) (noCount values q.2)) st.best_split_score
        · have h4 := hless (absDiff (yesCount values q.2) (noCount values q.2))
            (by rw [scalarStep_eq_ite, if_pos hcond])
          have hlt := hcond.2.2
          rw [hn] at hlt
          simp only [scoreLT] at hlt
          have h5 : absDiff (yesCount values q.2) (noCount values q.2) < n :=
            of_decide_eq_true hlt
          omega
        · have hstq : scalarStep prop values st q = st := by
            rw [scalarStep_eq_ite, if_neg hcond]
          rw [hstq] at hless
          exact hless n hn

theorem yesCount_antitone (values : List (Noun × Int)) {t t2 : Int} (h : t ≤ t2) :
    yesCount values t2 ≤ yesCount values t := by
  unfold yesCount
  induction values with
  | nil => simp
  | cons v rest ih =>
    by_cases h1 : t2 < v.2
    · have h2 : t < v.2 := lt_of_le_of_lt h h1
      simpa [List.filter_cons, h1, h2] using ih
    · by_cases h2 : t < v.2
      · simp [List.filter_cons, h1, h2]
        omega
      · simpa [List.filter_cons, h1, h2] using ih

/-- Claim C2, amended: the scalar evaluation of one attribute returns a
split at some enumerated threshold that is valid (both sides non-empty),
whose recorded score is its imbalance, and whose imbalance is minimal among
all valid splits at the enumerated thresholds (the sorted ratings from
position 1 on — every distinct recorded value except a uniquely-minimal
one); on an exact imbalance tie against any enumerated valid threshold, the
returned threshold is the smallest — the earliest in ascending order —
whose yes group is (weakly) the **larger** one: in particular for values
[2,4,6,8,10] the chosen split is threshold 4, with 3 yes versus 2 no. -/
theorem C2_amended (prop : PName) (values : List (Noun × Int)) (t0 : Int) (s : Nat)
    (ht : (scalarUpdate prop values initBest).best_threshold = some t0)
    (hs : (scalarUpdate prop values initBest).best_split_score = some s) :
    (validSplit values t0 ∧ s = splitScore values t0 ∧
      ∀ t ∈ scalarThresholds values, validSplit values t →
        s ≤ splitScore values t ∧
        (splitScore values t = s → t0 ≤ t ∧ yesCount values t ≤ yesCount values t0)) ∧
    scalarUpdate "size" [("a", 2), ("b", 4), ("c", 6), ("d", 8), ("e", 10)] initBest =
      ⟨some "size", some 1, some 4, some "continuous", some "b"⟩ := by
  have ht2 : (List.foldl (scalarStep prop values) initBest
      (List.drop 1 (sortValues values))).best_threshold = some t0 := ht
  have hs2 : (List.foldl (scalarStep prop values) initBest
      (List.drop 1 (sortValues values))).best_split_score = some s := hs
  have hcons := scalarFold_consistent prop values ((sortValues values).drop 1) initBest
    (initBest_consistent values) t0 s ht hs
  rcases scalarFold_firstMin prop values ((sortValues values).drop 1) initBest t0 s ht2 hs2 with
    ⟨hth, _, _⟩ | ⟨l1, q, l2, hdec, hq2, hqv, hqs, hstrict, _⟩
  · exact absurd hth (by simp [initBest])
  · haveI instT : IsTotal (Noun × Int) (fun a b => a.2 ≤ b.2) :=
      ⟨fun a b => Int.le_total a.2 b.2⟩
    haveI instTr : IsTrans (Noun × Int) (fun a b => a.2 ≤ b.2) :=
      ⟨fun a b c hab hbc => le_trans hab hbc⟩
    have hsorted : List.Sorted (fun a b : Noun × Int => a.2 ≤ b.2) (sortValues values) :=
      List.sorted_insertionSort _ _
    have hsorted1 : List.Sorted (fun a b : Noun × Int => a.2 ≤ b.2)
        ((sortValues values).drop 1) :=
      List.Pairwise.sublist (List.drop_sublist 1 (sortValues values)) hsorted
    rw [hdec] at hsorted1
    have hsorted2 : List.Sorted (fun a b : Noun × Int => a.2 ≤ b.2) (q :: l2) :=
      List.Pairwise.sublist (List.sublist_append_right l1 (q :: l2)) hsorted1
    refine ⟨⟨hcons.1, hcons.2, fun t htm hvt => ?_⟩, by decide⟩
    obtain ⟨pair, hpmem, hpt⟩ := List.mem_map.1 htm
    subst hpt
    obtain ⟨m, hm, hle⟩ :=
      scalarFold_min prop values ((sortValues values).drop 1) initBest pair hpmem hvt
        (splitScore values pair.2) rfl
    rw [hs2] at hm
    injection hm with hm
    refine ⟨by omega, fun htie => ?_⟩
    rw [hdec] at hpmem
    rcases List.mem_append.1 hpmem with hmem1 | hmem2
    · have := hstrict pair hmem1 hvt
      omega
    · have hle2 : q.2 ≤ pair.2 := by
        rcases List.mem_cons.1 hmem2 with rfl | hmem3
        · exact le_refl _
        · exact List.rel_of_sorted_cons hsorted2 pair hmem3
      rw [hq2] at hle2
      exact ⟨hle2, yesCount_antitone values hle2⟩

/-- Claim C2, witness: the amended theorem applied at the scenario values
[2,4,6,8,10], where the returned threshold is 4 with score 1, and the tie
clause applied at the tied threshold 6: the returned threshold is the
smaller one and its yes group the larger one. -/
theorem C2_witness :
    validSplit [("a", 2), ("b", 4), ("c", 6), ("d", 8), ("e", 10)] 4 ∧
    (1 : Nat) = splitScore [("a", 2), ("b", 4), ("c", 6), ("d", 8), ("e", 10)] 4 ∧
    ((4 : Int) ≤ 6 ∧
      yesCount [("a", 2), ("b", 4), ("c", 6), ("d", 8), ("e", 10)] 6 ≤
        yesCount [("a", 2), ("b", 4), ("c", 6), ("d", 8), ("e", 10)] 4) :=
  ⟨(C2_amended "size" [("a", 2), ("b", 4), ("c", 6), ("d", 8), ("e", 10)] 4 1
      (by decide) (by decide)).1.1,
   (C2_amended "size" [("a", 2), ("b", 4), ("c", 6), ("d", 8), ("e", 10)] 4 1
      (by decide) (by decide)).1.2.1,
   ((C2_amended "size" [("a", 2), ("b", 4), ("c", 6), ("d", 8), ("e", 10)] 4 1
      (by decide) (by decide)).1.2.2 6 (by decide) (by decide)).2 (by decide)⟩

theorem initBest_contSound (nd : NounData) (remaining : List Noun) :
    contSound nd remaining initBest := by
  intro h
  simp [initBest] at h

theorem boolUpdate_contSound (nd : NounData) (remaining : List Noun) (prop : PName)
    (values : List (Noun × Int)) (st : BestState) (h : contSound nd remaining st) :
    contSound nd remaining (boolUpdate prop values st) := by
  simp only [boolUpdate]
  split
  · intro htype
    simp at htype
  · exact h

theorem scalarStep_contSound (nd : NounData) (remaining : List Noun) (prop : PName)
    (st : BestState) (pair : Noun × Int) (h : contSound nd remaining st) :
    contSound nd remaining (scalarStep prop (valuesFor nd remaining prop) st pair) := by
  simp only [scalarStep]
  split
  · rename_i hguard
    intro _
    exact ⟨prop, pair.2, rfl, rfl, hguard.1, hguard.2.1⟩
  · exact h

theorem scalarUpdate_contSound (nd : NounData) (remaining : List Noun) (prop : PName)
    (st : BestState) (h : contSound nd remaining st) :
    contSound nd remaining (scalarUpdate prop (valuesFor nd remaining prop) st) := by
  unfold scalarUpdate
  generalize ((sortValues (valuesFor nd remaining prop)).drop 1) = l
  induction l generalizing st with
  | nil => exact h
  | cons pair rest ih => exact ih _ (scalarStep_contSound nd remaining prop st pair h)

theorem best_question_contSound (ptypes : List (PName × String)) (nd : NounData)
    (props : List PName) (remaining : List Noun) (asked : List PName) :
    contSound nd remaining (best_question ptypes nd props remaining asked) := by
  unfold best_question
  have key : ∀ (l : List PName) (st : BestState), contSound nd remaining st →
      contSound nd remaining (l.foldl
        (fun st prop =>
          if asked.contains prop then st
          else
            let values := valuesFor nd remaining prop
            match ptypes.lookup prop with
            | some "boolean" => boolUpdate prop values st
            | some "scale" => scalarUpdate prop values st
            | _ => st)
        st) := by
    intro l
    induction l with
    | nil => intro st h; exact h
    | cons prop rest ih =>
      intro st h
      rw [List.foldl_cons]
      refine ih _ ?_
      dsimp only
      split
      · exact h
      · split
        · exact boolUpdate_contSound nd remaining prop _ st h
        · exact scalarUpdate_contSound nd remaining prop st h
        · exact h
  exact key props initBest (initBest_contSound nd remaining)

/-- Claim C1, amended: the guard exists only in the scalar branch — whenever
`best_question` returns a "continuous" (scalar) question, the recorded
threshold splits the recorded values of the chosen property with both sides
non-empty; the boolean branch has no such guard, and a boolean attribute
with an empty side — even one with no recorded values, scoring a perfect 0
— can become the chosen question (see the counterexample). -/
theorem C1_amended (ptypes : List (PName × String)) (nd : NounData) (props : List PName)
    (remaining : List Noun) (asked : List PName)
    (h : (best_question ptypes nd props remaining asked).best_type = some "continuous") :
    ∃ p t, (best_question ptypes nd props remaining asked).best_property = some p ∧
      (best_question ptypes nd props remaining asked).best_threshold = some t ∧
      validSplit (valuesFor nd remaining p) t :=
  best_question_contSound ptypes nd props remaining asked h

/-- Claim C1, witness: the amended theorem at a concrete table where the
scalar attribute "size" is selected. -/
theorem C1_witness :
    ∃ p t,
      (best_question [("size", "scale")]
          [("a", [("size", 2)]), ("b", [("size", 4)]), ("c", [("size", 6)]),
            ("d", [("size", 8)]), ("e", [("size", 10)])]
          ["size"] ["a", "b", "c", "d", "e"] []).best_property = some p ∧
      (best_question [("size", "scale")]
          [("a", [("size", 2)]), ("b", [("size", 4)]), ("c", [("size", 6)]),
            ("d", [("size", 8)]), ("e", [("size", 10)])]
          ["size"] ["a", "b", "c", "d", "e"] []).best_threshold = some t ∧
      validSplit (valuesFor
          [("a", [("size", 2)]), ("b", [("size", 4)]), ("c", [("size", 6)]),
            ("d", [("size", 8)]), ("e", [("size", 10)])]
          ["a", "b", "c", "d", "e"] p) t :=
  C1_amended [("size", "scale")]
    [("a", [("size", 2)]), ("b", [("size", 4)]), ("c", [("size", 6)]),
      ("d", [("size", 8)]), ("e", [("size", 10)])]
    ["size"] ["a", "b", "c", "d", "e"] [] (by decide)

theorem playAux_stop (nd : NounData) (ptypes : List (PName × String)) (props : List PName)
    (fuel : Nat) (st : GState) (answers : List Int)
    (h : ¬(st.count < 19 ∧ 1 < st.remaining.length)) :
    playAux nd ptypes props fuel st answers = ([], st) := by
  cases fuel with
  | zero => rfl
  | succ f => simp only [playAux, if_neg h]

theorem playAux_none (nd : NounData) (ptypes : List (PName × String)) (props : List PName)
    (fuel : Nat) (st : GState) (answers : List Int)
    (hbq : (best_question ptypes nd props st.remaining st.asked).best_property = none) :
    playAux nd ptypes props fuel st answers = ([], st) := by
  cases fuel with
  | zero => rfl
  | succ f =>
    simp only [playAux]
    split
    · rw [hbq]
    · rfl

theorem playAux_entries (nd : NounData) (ptypes : List (PName × String)) (props : List PName) :
    ∀ (fuel : Nat) (st : GState) (answers : List Int),
      ∀ e ∈ (playAux nd ptypes props fuel st answers).1,
        st.count ≤ e.countBefore ∧ e.countBefore < 19 ∧ 1 < e.remBefore.length := by
  intro fuel
  induction fuel with
  | zero => intro st answers e he; simp [playAux] at he
  | succ f ih =>
    intro st answers e he
    simp only [playAux] at he
    split at he
    · rename_i hguard
      split at he
      · simp at he
      · rename_i prop hprop
        match answers, he with
        | a :: rest, he =>
          simp only [List.mem_cons] at he
          rcases he with rfl | he
          · exact ⟨le_refl _, hguard.1, hguard.2⟩
          · have h2 : st.count + 1 ≤ e.countBefore ∧ e.countBefore < 19 ∧
                1 < e.remBefore.length :=
              ih ⟨applyAnswer nd st.remaining
                    (best_question ptypes nd props st.remaining st.asked) prop a,
                  st.asked ++ [prop], st.count + 1⟩ rest e he
            exact ⟨by omega, h2.2⟩
    · simp at he

theorem playAux_len (nd : NounData) (ptypes : List (PName × String)) (props : List PName) :
    ∀ (fuel : Nat) (st : GState) (answers : List Int),
      (playAux nd ptypes props fuel st answers).1.length ≤ 19 - st.count := by
  intro fuel
  induction fuel with
  | zero => intro st answers; simp [playAux]
  | succ f ih =>
    intro st answers
    simp only [playAux]
    split
    · rename_i hguard
      split
      · simp
      · rename_i prop hprop
        match answers with
        | [] => simp
        | a :: rest =>
          simp only [List.length_cons]
          have h2 : (playAux nd ptypes props f
              ⟨applyAnswer nd st.remaining
                  (best_question ptypes nd props st.remaining st.asked) prop a,
                st.asked ++ [prop], st.count + 1⟩ rest).1.length ≤ 19 - (st.count + 1) :=
            ih ⟨applyAnswer nd st.remaining
                  (best_question ptypes nd props st.remaining st.asked) prop a,
                st.asked ++ [prop], st.count + 1⟩ rest
          omega
    · simp

theorem catPlayAux_stop (fuel : Nat) (st : CatState) (tokens : List String)
    (h : ¬(st.count < 19 ∧ 1 < st.candidates.length)) :
    catPlayAux fuel st tokens = ([], st) := by
  cases fuel with
  | zero => rfl
  | succ f => simp only [catPlayAux, if_neg h]

theorem catPlayAux_entries :
    ∀ (fuel : Nat) (st : CatState) (tokens : List String),
      ∀ e ∈ (catPlayAux fuel st tokens).1,
        st.count ≤ e.countBefore ∧ e.countBefore < 19 ∧ 1 < e.candidatesBefore.length := by
  intro fuel
  induction fuel with
  | zero => intro st tokens e he; simp [catPlayAux] at he
  | succ f ih =>
    intro st tokens e he
    simp only [catPlayAux] at he
    split at he
    · rename_i hguard
      split at he
      · rename_i res k yes no hsel
        match tokens, he with
        | tok :: rest, he =>
          simp only [List.mem_cons] at he
          rcases he with rfl | he
          · exact ⟨le_refl _, hguard.1, hguard.2⟩
          · have h2 : st.count + 1 ≤ e.countBefore ∧ e.countBefore < 19 ∧
                1 < e.candidatesBefore.length :=
              ih ⟨if tok = "1" then yes else no, st.asked_letters ++ [k],
                st.asked_categories, st.count + 1⟩ rest e he
            exact ⟨by omega, h2.2⟩
      · split at he
        · rename_i res k yes no hsel
          match tokens, he with
          | tok :: rest, he =>
            simp only [List.mem_cons] at he
            rcases he with rfl | he
            · exact ⟨le_refl _, hguard.1, hguard.2⟩
            · have h2 : st.count + 1 ≤ e.countBefore ∧ e.countBefore < 19 ∧
                  1 < e.candidatesBefore.length :=
                ih ⟨if tok = "1" then yes else no, st.asked_letters,
                  st.asked_categories ++ [k], st.count + 1⟩ rest e he
              exact ⟨by omega, h2.2⟩
        · simp at he
    · simp at he

theorem catPlayAux_len :
    ∀ (fuel : Nat) (st : CatState) (tokens : List String),
      (catPlayAux fuel st tokens).1.length ≤ 19 - st.count := by
  intro fuel
  induction fuel with
  | zero => intro st tokens; simp [catPlayAux]
  | succ f ih =>
    intro st tokens
    simp only [catPlayAux]
    split
    · rename_i hguard
      split
      · rename_i res k yes no hsel
        match tokens with
        | [] => simp
        | tok :: rest =>
          simp only [List.length_cons]
          have h2 : (catPlayAux f ⟨if tok = "1" then yes else no, st.asked_letters ++ [k],
              st.asked_categories, st.count + 1⟩ rest).1.length ≤ 19 - (st.count + 1) :=
            ih ⟨if tok = "1" then yes else no, st.asked_letters ++ [k],
              st.asked_categories, st.count + 1⟩ rest
          omega
      · split
        · rename_i res k yes no hsel
          match tokens with
          | [] => simp
          | tok :: rest =>
            simp only [List.length_cons]
            have h2 : (catPlayAux f ⟨if tok = "1" then yes else no, st.asked_letters,
                st.asked_categories ++ [k], st.count + 1⟩ rest).1.length ≤ 19 - (st.count + 1) :=
              ih ⟨if tok = "1" then yes else no, st.asked_letters,
                st.asked_categories ++ [k], st.count + 1⟩ rest
            omega
        · simp
    · simp

/-- Claim C8: in both sessions every question is issued at a state with
turn count strictly below 19 and more than one remaining candidate; a
candidate list of size at most 1 yields no question at all (immediate
terminal); and at most 19 questions are ever issued (the terminal guess is
absorbing: nothing follows the trace).  Stated for main_new.py's
`play_game` and for category_example_20_q.py's session alike. -/
theorem C8_theorem (nd : NounData) (ptypes : List (PName × String)) (props : List PName)
    (rem0 : List Noun) (answers : List Int) (nouns : List Noun) (tokens : List String) :
    ((∀ e ∈ (play_game nd ptypes props rem0 answers).1,
        e.countBefore < 19 ∧ 1 < e.remBefore.length) ∧
      (rem0.length ≤ 1 → (play_game nd ptypes props rem0 answers).1 = []) ∧
      (play_game nd ptypes props rem0 answers).1.length ≤ 19) ∧
    ((∀ e ∈ (catPlay nouns tokens).1,
        e.countBefore < 19 ∧ 1 < e.candidatesBefore.length) ∧
      (nouns.length ≤ 1 → (catPlay nouns tokens).1 = []) ∧
      (catPlay nouns tokens).1.length ≤ 19) := by
  refine ⟨⟨fun e he => ?_, fun h1 => ?_, ?_⟩, fun e he => ?_, fun h1 => ?_, ?_⟩
  · exact (playAux_entries nd ptypes props 19 ⟨rem0, [], 0⟩ answers e he).2
  · show (playAux nd ptypes props 19 ⟨rem0, [], 0⟩ answers).1 = []
    rw [playAux_stop nd ptypes props 19 ⟨rem0, [], 0⟩ answers ?_]
    intro hc
    have h2 : 1 < rem0.length := hc.2
    omega
  · show (playAux nd ptypes props 19 ⟨rem0, [], 0⟩ answers).1.length ≤ 19
    have h2 : (playAux nd ptypes props 19 ⟨rem0, [], 0⟩ answers).1.length ≤ 19 - 0 :=
      playAux_len nd ptypes props 19 ⟨rem0, [], 0⟩ answers
    omega
  · exact (catPlayAux_entries 19 ⟨nouns, [], [], 0⟩ tokens e he).2
  · show (catPlayAux 19 ⟨nouns, [], [], 0⟩ tokens).1 = []
    rw [catPlayAux_stop 19 ⟨nouns, [], [], 0⟩ tokens ?_]
    intro hc
    have h2 : 1 < nouns.length := hc.2
    omega
  · show (catPlayAux 19 ⟨nouns, [], [], 0⟩ tokens).1.length ≤ 19
    have h2 : (catPlayAux 19 ⟨nouns, [], [], 0⟩ tokens).1.length ≤ 19 - 0 :=
      catPlayAux_len 19 ⟨nouns, [], [], 0⟩ tokens
    omega

/-- Claim C8, witness: a one-candidate session asks no question, in the
attribute-based session and in the letter-based session alike. -/
theorem C8_witness :
    (play_game [("x", [])] [] [] ["x"] []).1 = [] ∧ (catPlay ["x"] []).1 = [] :=
  ⟨(C8_theorem [("x", [])] [] [] ["x"] [] ["x"] []).1.2.1 (by decide),
   (C8_theorem [("x", [])] [] [] ["x"] [] ["x"] []).2.2.1 (by decide)⟩

theorem applyAnswer_sublist (nd : NounData) (remaining : List Noun) (bq : BestState)
    (prop : PName) (a : Int) :
    (applyAnswer nd remaining bq prop a).Sublist remaining := by
  unfold applyAnswer binaryFilter continuousFilter
  repeat' split
  all_goals first
    | exact List.filter_sublist _
    | exact List.Sublist.refl _

theorem playAux_sublist (nd : NounData) (ptypes : List (PName × String)) (props : List PName) :
    ∀ (fuel : Nat) (st : GState) (answers : List Int),
      (∀ e ∈ (playAux nd ptypes props fuel st answers).1, e.remAfter.Sublist e.remBefore) ∧
      (playAux nd ptypes props fuel st answers).2.remaining.Sublist st.remaining := by
  intro fuel
  induction fuel with
  | zero =>
    intro st answers
    exact ⟨fun e he => by simp [playAux] at he, List.Sublist.refl _⟩
  | succ f ih =>
    intro st answers
    simp only [playAux]
    split
    · rename_i hguard
      split
      · exact ⟨fun e he => by simp at he, List.Sublist.refl _⟩
      · rename_i prop hprop
        match answers with
        | [] => exact ⟨fun e he => by simp at he, List.Sublist.refl _⟩
        | a :: rest =>
          have h2 := ih ⟨applyAnswer nd st.remaining
              (best_question ptypes nd props st.remaining st.asked) prop a,
            st.asked ++ [prop], st.count + 1⟩ rest
          refine ⟨fun e he => ?_, ?_⟩
          · simp only [List.mem_cons] at he
            rcases he with rfl | he
            · exact applyAnswer_sublist nd st.remaining _ prop a
            · exact h2.1 e he
          · exact List.Sublist.trans h2.2 (applyAnswer_sublist nd st.remaining _ prop a)
    · exact ⟨fun e he => by simp at he, List.Sublist.refl _⟩

theorem splitByTest_sublist (cands : List Noun) (t : Noun → Option Bool) (yes no : List Noun)
    (h : splitByTest cands t = some (yes, no)) : yes.Sublist cands ∧ no.Sublist cands := by
  unfold splitByTest at h
  split at h
  · injection h with h
    injection h with h1 h2
    subst h1; subst h2
    exact ⟨List.filter_sublist _, List.filter_sublist _⟩
  · cases h

theorem letterFold_step_sublist (cands : List Noun) (asked : List String)
    (st : Option (String × List Noun × List Noun) × Nat × Nat)
    (entry : String × String × (Noun → Option Bool))
    (hst : ∀ k y n, st.1 = some (k, y, n) → y.Sublist cands ∧ n.Sublist cands) :
    ∀ k y n, (letterFold cands asked st entry).1 = some (k, y, n) →
      y.Sublist cands ∧ n.Sublist cands := by
  intro k y n h
  simp only [letterFold] at h
  split at h
  · exact hst _ _ _ h
  · split at h
    · exact hst _ _ _ h
    · rename_i yes1 no1 hsplit
      split at h
      · exact hst _ _ _ h
      · split at h
        · dsimp only at h
          injection h with h
          injection h with hk hyn
          injection hyn with hy hn
          subst hy; subst hn
          exact splitByTest_sublist cands entry.2.2 _ _ hsplit
        · exact hst _ _ _ h

theorem letterFold_sublist (cands : List Noun) (asked : List String) :
    ∀ (l : List (String × String × (Noun → Option Bool)))
      (st : Option (String × List Noun × List Noun) × Nat × Nat),
      (∀ k y n, st.1 = some (k, y, n) → y.Sublist cands ∧ n.Sublist cands) →
      ∀ k y n, (l.foldl (letterFold cands asked) st).1 = some (k, y, n) →
        y.Sublist cands ∧ n.Sublist cands := by
  intro l
  induction l with
  | nil => intro st hst k y n h; exact hst k y n h
  | cons entry rest ih =>
    intro st hst k y n h
    exact ih _ (letterFold_step_sublist cands asked st entry hst) k y n h

theorem select_letter_sublist (cands : List Noun) (asked : List String) (k : String)
    (yes no : List Noun)
    (h : select_best_letter_question cands asked = some (k, yes, no)) :
    yes.Sublist cands ∧ no.Sublist cands := by
  unfold select_best_letter_question at h
  exact letterFold_sublist cands asked LETTER_STRATEGY (none, 0, 1)
    (fun k y n hc => by cases hc) k yes no h

theorem selectCategoryAux_sublist (cands : List Noun) (asked : List String) :
    ∀ (l : List (String × String × (Noun → Bool))) (k : String) (yes no : List Noun),
      selectCategoryAux cands asked l = some (k, yes, no) →
      yes.Sublist cands ∧ no.Sublist cands := by
  intro l
  induction l with
  | nil => intro k yes no h; cases h
  | cons entry rest ih =>
    intro k yes no h
    simp only [selectCategoryAux] at h
    split at h
    · exact ih k yes no h
    · split at h
      · exact ih k yes no h
      · split at h
        · injection h with h
          injection h with hk hyn
          injection hyn with hy hn
          subst hy; subst hn
          exact ⟨List.filter_sublist _, List.filter_sublist _⟩
        · exact ih k yes no h

theorem catPlayAux_sublist :
    ∀ (fuel : Nat) (st : CatState) (tokens : List String),
      (∀ e ∈ (catPlayAux fuel st tokens).1, e.candidatesAfter.Sublist e.candidatesBefore) ∧
      (catPlayAux fuel st tokens).2.candidates.Sublist st.candidates := by
  intro fuel
  induction fuel with
  | zero =>
    intro st tokens
    exact ⟨fun e he => by simp [catPlayAux] at he, List.Sublist.refl _⟩
  | succ f ih =>
    intro st tokens
    simp only [catPlayAux]
    split
    · rename_i hguard
      split
      · rename_i res k yes no hsel
        match tokens with
        | [] => exact ⟨fun e he => by simp at he, List.Sublist.refl _⟩
        | tok :: rest =>
          have hsub : (if tok = "1" then yes else no).Sublist st.candidates := by
            have h2 := select_letter_sublist st.candidates st.asked_letters k yes no hsel
            split
            · exact h2.1
            · exact h2.2
          have h3 := ih ⟨if tok = "1" then yes else no,
            st.asked_letters ++ [k], st.asked_categories, st.count + 1⟩ rest
          refine ⟨fun e he => ?_, List.Sublist.trans h3.2 hsub⟩
          simp only [List.mem_cons] at he
          rcases he with rfl | he
          · exact hsub
          · exact h3.1 e he
      · split
        · rename_i res k yes no hsel
          match tokens with
          | [] => exact ⟨fun e he => by simp at he, List.Sublist.refl _⟩
          | tok :: rest =>
            have hsub : (if tok = "1" then yes else no).Sublist st.candidates := by
              have h2 := selectCategoryAux_sublist st.candidates st.asked_categories
                CATEGORIES k yes no hsel
              split
              · exact h2.1
              · exact h2.2
            have h3 := ih ⟨if tok = "1" then yes else no,
              st.asked_letters, st.asked_categories ++ [k], st.count + 1⟩ rest
            refine ⟨fun e he => ?_, List.Sublist.trans h3.2 hsub⟩
            simp only [List.mem_cons] at he
            rcases he with rfl | he
            · exact hsub
            · exact h3.1 e he
        · exact ⟨fun e he => by simp at he, List.Sublist.refl _⟩
    · exact ⟨fun e he => by simp at he, List.Sublist.refl _⟩

/-- Claim C10: in both sessions, every filtering step produces a sublist
(hence a subset) of the previous candidate list, so the candidate count
never increases across any turn; the final candidate list is a sublist of
the initial one. -/
theorem C10_theorem (nd : NounData) (ptypes : List (PName × String)) (props : List PName)
    (rem0 : List Noun) (answers : List Int) (nouns : List Noun) (tokens : List String) :
    (∀ e ∈ (play_game nd ptypes props rem0 answers).1,
        e.remAfter.Sublist e.remBefore ∧ e.remAfter.length ≤ e.remBefore.length) ∧
    (playAux nd ptypes props 19 ⟨rem0, [], 0⟩ answers).2.remaining.Sublist rem0 ∧
    (∀ e ∈ (catPlay nouns tokens).1,
        e.candidatesAfter.Sublist e.candidatesBefore ∧
          e.candidatesAfter.length ≤ e.candidatesBefore.length) ∧
    (catPlay nouns tokens).2.1.candidates.Sublist nouns := by
  refine ⟨fun e he => ?_, ?_, fun e he => ?_, ?_⟩
  · have h2 := (playAux_sublist nd ptypes props 19 ⟨rem0, [], 0⟩ answers).1 e he
    exact ⟨h2, h2.length_le⟩
  · exact (playAux_sublist nd ptypes props 19 ⟨rem0, [], 0⟩ answers).2
  · have h2 := (catPlayAux_sublist 19 ⟨nouns, [], [], 0⟩ tokens).1 e he
    exact ⟨h2, h2.length_le⟩
  · exact (catPlayAux_sublist 19 ⟨nouns, [], [], 0⟩ tokens).2

/-- Claim C10, witness: the concrete cat/dog turn shrinks the two-element
candidate list to the sublist [dog]. -/
theorem C10_witness :
    (["dog"] : List Noun).Sublist ["cat", "dog"] ∧
    (["dog"] : List Noun).length ≤ (["cat", "dog"] : List Noun).length :=
  (C10_theorem [("cat", [("fast", 0)]), ("dog", [("fast", 1)])] [("fast", "boolean")]
      ["fast"] ["cat", "dog"] [1] [] []).1
    ⟨0, ["cat", "dog"], ⟨"fast", "binary", none, none⟩, 1, ["dog"]⟩ (by decide)

theorem charsLe_refl : ∀ a : List Char, charsLe a a = true
  | [] => rfl
  | c :: cs => by
    simp only [charsLe]
    rw [if_neg (Nat.lt_irrefl _), if_neg (Nat.lt_irrefl _)]
    exact charsLe_refl cs

theorem charsLe_total : ∀ a b : List Char, charsLe a b = true ∨ charsLe b a = true
  | [], _ => Or.inl rfl
  | _ :: _, [] => Or.inr rfl
  | a :: as, b :: bs => by
    simp only [charsLe]
    rcases Nat.lt_trichotomy a.toNat b.toNat with h | h | h
    · left; rw [if_pos h]
    · simp only [if_neg (show ¬ a.toNat < b.toNat by omega),
        if_neg (show ¬ b.toNat < a.toNat by omega)]
      exact charsLe_total as bs
    · right; rw [if_pos h]

theorem charsLe_trans : ∀ a b c : List Char, charsLe a b = true → charsLe b c = true →
    charsLe a c = true
  | [], _, _, _, _ => rfl
  | _ :: _, [], _, hab, _ => by simp [charsLe] at hab
  | _ :: _, _ :: _, [], _, hbc => by simp [charsLe] at hbc
  | a :: as, b :: bs, c :: cs, hab, hbc => by
    simp only [charsLe] at hab hbc ⊢
    by_cases h1 : a.toNat < b.toNat
    · by_cases h2 : b.toNat < c.toNat
      · rw [if_pos (by omega)]
      · by_cases h3 : c.toNat < b.toNat
        · rw [if_neg h2, if_pos h3] at hbc
          exact (Bool.false_ne_true hbc).elim
        · rw [if_pos (by omega)]
    · by_cases h4 : b.toNat < a.toNat
      · rw [if_neg h1, if_pos h4] at hab
        exact (Bool.false_ne_true hab).elim
      · by_cases h2 : b.toNat < c.toNat
        · rw [if_pos (by omega)]
        · by_cases h3 : c.toNat < b.toNat
          · rw [if_neg h2, if_pos h3] at hbc
            exact (Bool.false_ne_true hbc).elim
          · rw [if_neg (show ¬ a.toNat < c.toNat by omega),
              if_neg (show ¬ c.toNat < a.toNat by omega)]
            rw [if_neg h1, if_neg h4] at hab
            rw [if_neg h2, if_neg h3] at hbc
            exact charsLe_trans as bs cs hab hbc

theorem strLeP_total (a b : String) : strLeP a b ∨ strLeP b a := charsLe_total a.data b.data

theorem strLeP_trans (a b c : String) (h1 : strLeP a b) (h2 : strLeP b c) : strLeP a c :=
  charsLe_trans a.data b.data c.data h1 h2

theorem strLeP_refl (a : String) : strLeP a a := charsLe_refl a.data

/-- Claim C7, amended: in category_example_20_q.py the terminal guess is
the lexicographically least member of the candidates whenever candidates
remain (and an error message, not a guess, when none remain); in
main_new.py the guess is the **first element of the set's iteration
order** — deterministic only relative to that arbitrary order — with the
sentinel "unknown" when no candidate remains. -/
theorem C7_amended (cands rem : List Noun) (h : cands ≠ []) :
    (∃ g, catGuess cands = some g ∧ g ∈ cands ∧ ∀ n ∈ cands, strLeP g n) ∧
    catGuess ([] : List Noun) = none ∧
    mainNewGuess ([] : List Noun) = "unknown" ∧
    (rem ≠ [] → mainNewGuess rem = rem.headD "unknown") := by
  refine ⟨?_, rfl, rfl, fun hr => ?_⟩
  · haveI instT : IsTotal String strLeP := ⟨strLeP_total⟩
    haveI instTr : IsTrans String strLeP := ⟨fun a b c => strLeP_trans a b c⟩
    have hp : (sortedStrings cands).Perm cands := List.perm_insertionSort strLeP cands
    have hsort : List.Sorted strLeP (sortedStrings cands) :=
      List.sorted_insertionSort strLeP cands
    cases hs : sortedStrings cands with
    | nil =>
      rw [hs] at hp
      exact absurd hp.symm.eq_nil h
    | cons g gs =>
      rw [hs] at hp hsort
      refine ⟨g, ?_, ?_, ?_⟩
      · simp [catGuess, hs]
      · exact hp.subset (List.mem_cons_self g gs)
      · intro n hn
        rcases List.mem_cons.1 (hp.mem_iff.2 hn) with rfl | hn3
        · exact strLeP_refl n
        · exact List.rel_of_sorted_cons hsort n hn3
  · cases rem with
    | nil => exact absurd rfl hr
    | cons x xs => rfl

/-- Claim C7, witness: on candidates [dog, cat] the letter-based session
guesses the lexicographic minimum. -/
theorem C7_witness :
    (∃ g, catGuess ["dog", "cat"] = some g ∧ g ∈ (["dog", "cat"] : List Noun) ∧
      ∀ n ∈ (["dog", "cat"] : List Noun), strLeP g n) ∧
    catGuess ([] : List Noun) = none ∧
    mainNewGuess ([] : List Noun) = "unknown" ∧
    ((["dog"] : List Noun) ≠ [] → mainNewGuess ["dog"] = (["dog"] : List Noun).headD "unknown") :=
  C7_amended ["dog", "cat"] ["dog"] (by decide)

/-- Claim C9, amended: escalation letter-predicates → category catalog →
terminal exists only in category_example_20_q.py: its session asks a letter
question whenever one is available, consults the category catalog exactly
when the letter selector yields none, and stops (falling through to the
best-effort guess) when both yield none.  main_new.py's attribute session
has no fallback at all: when `best_question` yields no property the session
goes straight to the terminal best-effort guess. -/
theorem C9_amended (nd : NounData) (ptypes : List (PName × String)) (props : List PName)
    (rem0 : List Noun) (answers : List Int) (st : CatState) (fuel : Nat)
    (tok : String) (rest : List String) (k : String) (yes no : List Noun) :
    ((best_question ptypes nd props rem0 []).best_property = none →
      play_game nd ptypes props rem0 answers = ([], mainNewGuess rem0)) ∧
    (st.count < 19 → 1 < st.candidates.length →
      select_best_letter_question st.candidates st.asked_letters = some (k, yes, no) →
      ∃ e tr fin, catPlayAux (fuel + 1) st (tok :: rest) = (e :: tr, fin) ∧
        e.source = CatQSource.letter ∧ e.key = k) ∧
    (st.count < 19 → 1 < st.candidates.length →
      select_best_letter_question st.candidates st.asked_letters = none →
      select_category_question st.candidates st.asked_categories = some (k, yes, no) →
      ∃ e tr fin, catPlayAux (fuel + 1) st (tok :: rest) = (e :: tr, fin) ∧
        e.source = CatQSource.category ∧ e.key = k) ∧
    (select_best_letter_question st.candidates st.asked_letters = none →
      select_category_question st.candidates st.asked_categories = none →
      catPlayAux (fuel + 1) st (tok :: rest) = ([], st)) := by
  refine ⟨fun hbq => ?_, fun hc hl hsel => ?_, fun hc hl hsel1 hsel2 => ?_, fun hsel1 hsel2 => ?_⟩
  · have h2 := playAux_none nd ptypes props 19 ⟨rem0, [], 0⟩ answers hbq
    show ((playAux nd ptypes props 19 ⟨rem0, [], 0⟩ answers).1,
      mainNewGuess (playAux nd ptypes props 19 ⟨rem0, [], 0⟩ answers).2.remaining) = _
    rw [h2]
  · simp only [catPlayAux, if_pos (And.intro hc hl), hsel]
    exact ⟨_, _, _, rfl, rfl, rfl⟩
  · simp only [catPlayAux, if_pos (And.intro hc hl), hsel1, hsel2]
    exact ⟨_, _, _, rfl, rfl, rfl⟩
  · simp only [catPlayAux]
    split
    · simp [hsel1, hsel2]
    · rfl

/-- Claim C9, witness: on two names no letter or category question can
split, so the letter session stops immediately with its state intact. -/
theorem C9_witness :
    catPlayAux 1 ⟨["aa", "aab"], [], [], 0⟩ ["1"] = ([], ⟨["aa", "aab"], [], [], 0⟩) :=
  (C9_amended [] [] [] [] [] ⟨["aa", "aab"], [], [], 0⟩ 0 "1" [] "" [] []).2.2.2
    (by decide) (by decide)
